import Mathlib

/-!
Verification of the Timeline Scheduler of the strudel timeline fork.

The JavaScript source (`useTimeline`, `useTimelinePlayback`, the editor
ReplEditor arbiter and `createNewSong`) is shallowly embedded below.
JavaScript numbers are modelled as rationals (ℚ); all the arithmetic in the
embedded fragments is exact on the inputs the claims are about.  Object
spread over a partial-update record is modelled with `Option` fields, a
present field overriding the base value.  Wall-clock bookkeeping fields
(`createdAt`/`updatedAt`) carry no behavioural weight and are elided.
-/

namespace Strudel

/-- A timeline segment (`useTimeline.addSegment` literal shape).  The JS
field `repeat` is spelled `repeatFlag` because `repeat` is a Lean keyword. -/
structure Segment where
  id : String
  code : String
  name : String
  startTime : ℚ
  duration : ℚ
  repeatFlag : Bool
deriving DecidableEq

/-- A track: ordered segments plus mute/solo flags. -/
structure Track where
  id : String
  name : String
  color : String
  segments : List Segment
  muted : Bool
  solo : Bool
deriving DecidableEq

/-- The record pushed by `getActiveSegments`: the segment spread together
with its owning track's id and color. -/
structure ActiveSegment where
  seg : Segment
  trackId : String
  trackColor : String
deriving DecidableEq

/-- `tracks.some((t) => t.solo)` inside `getActiveSegments`. -/
def hasSolo (tracks : List Track) : Bool :=
  tracks.any (fun t => t.solo)

/-- `getActiveSegments(time)`: per track, skip when muted, skip when some
track is soloed and this one is not; keep segments whose half-open interval
contains `time`; track order and in-track segment order preserved. -/
def getActiveSegments (tracks : List Track) (time : ℚ) : List ActiveSegment :=
  tracks.flatMap fun track =>
    if track.muted then []
    else if hasSolo tracks && !track.solo then []
    else track.segments.filterMap fun segment =>
      if segment.startTime ≤ time ∧ time < segment.startTime + segment.duration then
        some { seg := segment, trackId := track.id, trackColor := track.color }
      else none

end Strudel

namespace Strudel

/-- C1 -- `getActiveSegments(t)` returns exactly the segments of tracks that
survive mute/solo filtering (muted tracks dropped; with at least one soloed
track the non-solo tracks dropped) whose half-open interval
`[startTime, startTime + duration)` contains `t`; if every track is muted the
result is empty regardless of solo flags. -/
theorem getActiveSegments_spec (tracks : List Track) (t : ℚ) :
    (∀ a : ActiveSegment,
      a ∈ getActiveSegments tracks t ↔
        ∃ track, track ∈ tracks ∧ track.muted = false ∧
          (hasSolo tracks = true → track.solo = true) ∧
          ∃ seg, seg ∈ track.segments ∧
            a = { seg := seg, trackId := track.id, trackColor := track.color } ∧
            seg.startTime ≤ t ∧ t < seg.startTime + seg.duration)
    ∧ ((∀ track ∈ tracks, track.muted = true) → getActiveSegments tracks t = []) := by
  constructor
  · intro a
    constructor
    · intro h
      rw [getActiveSegments, List.mem_flatMap] at h
      obtain ⟨track, htr, hmem⟩ := h
      by_cases hm : track.muted
      · simp [hm] at hmem
      · by_cases hs : hasSolo tracks && !track.solo
        · simp [hm, hs] at hmem
        · rw [if_neg (by simp [hm]), if_neg (by simp [hs])] at hmem
          rw [List.mem_filterMap] at hmem
          obtain ⟨seg, hseg, hsome⟩ := hmem
          by_cases hin : seg.startTime ≤ t ∧ t < seg.startTime + seg.duration
          · rw [if_pos hin] at hsome
            refine ⟨track, htr, by simpa using hm, ?_, seg, hseg, ?_, hin.1, hin.2⟩
            · intro hsolo
              by_contra hns
              exact hs (by simp [hsolo, hns])
            · exact (Option.some.inj hsome).symm
          · rw [if_neg hin] at hsome
            exact absurd hsome (by simp)
    · rintro ⟨track, htr, hm, hsolo, seg, hseg, rfl, h1, h2⟩
      rw [getActiveSegments, List.mem_flatMap]
      refine ⟨track, htr, ?_⟩
      rw [if_neg (by simp [hm]), if_neg ?_]
      · rw [List.mem_filterMap]
        exact ⟨seg, hseg, by rw [if_pos ⟨h1, h2⟩]⟩
      · intro hc
        rw [Bool.and_eq_true, Bool.not_eq_true'] at hc
        rw [hsolo hc.1] at hc
        exact Bool.noConfusion hc.2
  · intro hall
    rw [getActiveSegments]
    apply List.eq_nil_iff_forall_not_mem.mpr
    intro a ha
    rw [List.mem_flatMap] at ha
    obtain ⟨track, htr, hmem⟩ := ha
    rw [if_pos (by simp [hall track htr])] at hmem
    exact absurd hmem (List.not_mem_nil a)

/-! ### Playback position (`useTimelinePlayback.updatePlayback`) -/

/-- Truncation toward zero, the rounding JavaScript's `%` operator uses. -/
def ratTrunc (q : ℚ) : ℤ :=
  if 0 ≤ q then ⌊q⌋ else ⌈q⌉

/-- JavaScript's remainder operator `a % b` on finite numbers: the result
carries the sign of the dividend. -/
def jsRem (a b : ℚ) : ℚ :=
  a - b * (ratTrunc (a / b) : ℚ)

/-- Mathematical (floor) modulus on rationals, normalized into `[0, b)` for
`b > 0`; the spec's `mod`. -/
def ratFmod (a b : ℚ) : ℚ :=
  a - b * (⌊a / b⌋ : ℚ)

/-- The playhead mapping of `updatePlayback`: when the selected segment has
repeat mode on, wrap the raw position into the segment via JS `%` plus a
negative-remainder correction; otherwise the raw position passes through. -/
def computeTimelinePosition (selectedSegment : Option Segment) (rawPosition : ℚ) : ℚ :=
  match selectedSegment with
  | some seg =>
    if seg.repeatFlag then
      let relativePosition := jsRem (rawPosition - seg.startTime) seg.duration
      seg.startTime +
        (if 0 ≤ relativePosition then relativePosition
         else seg.duration + relativePosition)
    else rawPosition
  | none => rawPosition

theorem ratFmod_eq_mul_fract (a b : ℚ) (hb : b ≠ 0) :
    ratFmod a b = b * Int.fract (a / b) := by
  rw [ratFmod, Int.fract, mul_sub, mul_div_cancel₀ a hb]

theorem ratFmod_nonneg (a b : ℚ) (hb : 0 < b) : 0 ≤ ratFmod a b := by
  rw [ratFmod_eq_mul_fract a b hb.ne']
  exact mul_nonneg hb.le (Int.fract_nonneg _)

theorem ratFmod_lt (a b : ℚ) (hb : 0 < b) : ratFmod a b < b := by
  rw [ratFmod_eq_mul_fract a b hb.ne']
  calc b * Int.fract (a / b) < b * 1 := by
        exact mul_lt_mul_of_pos_left (Int.fract_lt_one _) hb
    _ = b := mul_one b

/-- The JS remainder followed by the negative-branch correction computes the
floor modulus. -/
theorem jsRem_normalized (a b : ℚ) (hb : 0 < b) :
    (if 0 ≤ jsRem a b then jsRem a b else b + jsRem a b) = ratFmod a b := by
  rw [jsRem, ratTrunc]
  by_cases hq : 0 ≤ a / b
  · rw [if_pos hq]
    have : a - b * (⌊a / b⌋ : ℚ) = ratFmod a b := rfl
    rw [this, if_pos (ratFmod_nonneg a b hb)]
  · rw [if_neg hq]
    have hfc : ⌈a / b⌉ = ⌊a / b⌋ ∨ ⌈a / b⌉ = ⌊a / b⌋ + 1 := by
      have h1 := Int.floor_le_ceil (a / b)
      have h2 := Int.ceil_le_floor_add_one (a / b)
      omega
    rcases hfc with hfc | hfc
    · rw [hfc]
      have : a - b * (⌊a / b⌋ : ℚ) = ratFmod a b := rfl
      rw [this, if_pos (ratFmod_nonneg a b hb)]
    · have hfr : Int.fract (a / b) ≠ 0 := by
        intro h0
        have hint : a / b = (⌊a / b⌋ : ℚ) := by
          have := Int.self_sub_fract (a / b)
          rw [h0, sub_zero] at this
          exact this
        rw [hint, Int.ceil_intCast, Int.floor_intCast] at hfc
        omega
      have hpos : 0 < ratFmod a b := by
        rw [ratFmod_eq_mul_fract a b hb.ne']
        exact mul_pos hb (lt_of_le_of_ne (Int.fract_nonneg _) (Ne.symm hfr))
      have heq : a - b * ((⌊a / b⌋ + 1 : ℤ) : ℚ) = ratFmod a b - b := by
        push_cast
        rw [ratFmod]
        ring
      rw [hfc, heq, if_neg (by linarith [ratFmod_lt a b hb]), ]
      ring

theorem computeTimelinePosition_no_repeat (sel : Option Segment) (raw : ℚ)
    (h : ∀ seg : Segment, sel = some seg → seg.repeatFlag = false) :
    computeTimelinePosition sel raw = raw := by
  cases sel with
  | none => rfl
  | some seg =>
    rw [computeTimelinePosition, if_neg]
    rw [h seg rfl]
    exact Bool.false_ne_true

/-- C2 -- while Running, a tick with a repeat-mode selected segment publishes
`startTime + ((raw - startTime) mod duration)` with the modulus normalized
into `[0, duration)` even for a negative difference; with no repeat-mode
selected segment the raw position is published unchanged. -/
theorem updatePlayback_repeat_playhead (sel : Option Segment) (raw : ℚ) :
    (∀ seg : Segment, sel = some seg → seg.repeatFlag = true → 0 < seg.duration →
      computeTimelinePosition sel raw
          = seg.startTime + ratFmod (raw - seg.startTime) seg.duration
        ∧ 0 ≤ ratFmod (raw - seg.startTime) seg.duration
        ∧ ratFmod (raw - seg.startTime) seg.duration < seg.duration)
    ∧ ((∀ seg : Segment, sel = some seg → seg.repeatFlag = false) →
        computeTimelinePosition sel raw = raw) := by
  constructor
  · rintro seg rfl hrep hdur
    refine ⟨?_, ratFmod_nonneg _ _ hdur, ratFmod_lt _ _ hdur⟩
    have hn := jsRem_normalized (raw - seg.startTime) seg.duration hdur
    simp only [computeTimelinePosition, if_pos hrep]
    rw [hn]
  · exact computeTimelinePosition_no_repeat sel raw

/-- Witness for C2: the spec's example — segment `startTime = 10`,
`duration = 5`, raw position 23 maps to effective position 13; and with a
non-repeat selection raw position 23 passes through. -/
theorem updatePlayback_repeat_playhead_witness :
    computeTimelinePosition
        (some { id := "s", code := "c", name := "n",
                startTime := 10, duration := 5, repeatFlag := true }) 23 = 13
    ∧ computeTimelinePosition
        (some { id := "s", code := "c", name := "n",
                startTime := 10, duration := 5, repeatFlag := false }) 23 = 23 := by
  constructor
  · have h := (updatePlayback_repeat_playhead
      (some { id := "s", code := "c", name := "n",
              startTime := 10, duration := 5, repeatFlag := true }) 23).1
      _ rfl rfl (by norm_num)
    rw [h.1]
    have hf : ⌊(((23 : ℚ) - 10) / 5)⌋ = 2 := by
      rw [show ((23 : ℚ) - 10) / 5 = 13 / 5 by norm_num]
      rw [Int.floor_eq_iff]
      norm_num
    rw [ratFmod, hf]
    norm_num
  · exact (updatePlayback_repeat_playhead _ 23).2
      (by rintro seg ⟨rfl⟩; rfl)

/-! ### Compositor (`generateCombinedCode`) -/

/-- JavaScript `String.prototype.trim`: strip leading and trailing
whitespace. -/
def jsTrim (s : String) : String :=
  String.mk (((s.data.dropWhile Char.isWhitespace).reverse.dropWhile
    Char.isWhitespace).reverse)

/-- `wrapWithAnalyze`: trim the fragment; pass an empty or `silence` fragment
through unwrapped, otherwise parenthesize and append the `.analyze(segmentId)`
tag call. -/
def wrapWithAnalyze (segment : ActiveSegment) : String :=
  let code := jsTrim segment.seg.code
  if code == "" || code == "silence" then code
  else "(" ++ code ++ ").analyze(\"" ++ segment.seg.id ++ "\")"

/-- The filter predicate `code && code !== 'silence'` applied to wrapped
codes in `generateCombinedCode`. -/
def usableCode (code : String) : Bool :=
  !(code == "" || code == "silence")

/-- A fragment that survives trimming: neither empty nor the silence token. -/
def usableSeg (a : ActiveSegment) : Bool :=
  usableCode (jsTrim a.seg.code)

/-- The composition step of `generateCombinedCode`, as a function of the
already-resolved active list: empty list gives the silence token, a
single-element list returns its wrapped fragment directly, several are
filtered and joined inside `stack(...)`. -/
def composeActive (activeSegments : List ActiveSegment) : String :=
  match activeSegments with
  | [] => "silence"
  | [a] => wrapWithAnalyze a
  | _ =>
    match (activeSegments.map wrapWithAnalyze).filter usableCode with
    | [] => "silence"
    | [c] => c
    | segmentCodes =>
        "stack(\n  " ++ String.intercalate ",\n  " segmentCodes ++ "\n)"

/-- `generateCombinedCode(time)` resolves the active set then composes it. -/
def generateCombinedCode (tracks : List Track) (time : ℚ) : String :=
  composeActive (getActiveSegments tracks time)

/-- The wrapped form of the (code, id) data of an active segment; the wrap
step reads nothing else. -/
def wrapPair (p : String × String) : String :=
  let code := jsTrim p.1
  if code == "" || code == "silence" then code
  else "(" ++ code ++ ").analyze(\"" ++ p.2 ++ "\")"

/-- The data `composeActive` may depend on, per segment. -/
def codeIdPair (a : ActiveSegment) : String × String :=
  (a.seg.code, a.seg.id)

theorem usableCode_iff (s : String) :
    usableCode s = true ↔ s ≠ "" ∧ s ≠ "silence" := by
  rw [usableCode]
  simp [not_or]

theorem wrapped_string_usable (code tag : String) :
    usableCode ("(" ++ code ++ ").analyze(\"" ++ tag ++ "\")") = true := by
  rw [usableCode_iff]
  have hd : ("(" ++ code ++ ").analyze(\"" ++ tag ++ "\")").data
      = '(' :: (code.data ++ ").analyze(\"".data ++ tag.data ++ "\")".data) := by
    simp [String.data_append]
  constructor
  · intro he
    rw [he] at hd
    exact absurd hd.symm (List.cons_ne_nil _ _)
  · intro he
    rw [he] at hd
    exact absurd hd.symm (by simp)

theorem wrapWithAnalyze_of_usable (a : ActiveSegment) (h : usableSeg a = true) :
    wrapWithAnalyze a
      = "(" ++ jsTrim a.seg.code ++ ").analyze(\"" ++ a.seg.id ++ "\")" := by
  rw [usableSeg, usableCode] at h
  rw [wrapWithAnalyze, if_neg]
  simp only [Bool.not_eq_true'] at h
  simp [h]

theorem wrapWithAnalyze_of_unusable (a : ActiveSegment) (h : usableSeg a = false) :
    wrapWithAnalyze a = jsTrim a.seg.code := by
  rw [usableSeg, usableCode] at h
  simp only [Bool.not_eq_false'] at h
  rw [wrapWithAnalyze, if_pos]
  simp [h]

theorem usableCode_wrap (a : ActiveSegment) :
    usableCode (wrapWithAnalyze a) = usableSeg a := by
  by_cases h : usableSeg a = true
  · rw [h, wrapWithAnalyze_of_usable a h, wrapped_string_usable]
  · rw [Bool.not_eq_true] at h
    rw [wrapWithAnalyze_of_unusable a h]
    rfl

theorem filter_map_wrap (l : List ActiveSegment) :
    (l.map wrapWithAnalyze).filter usableCode
      = (l.filter usableSeg).map wrapWithAnalyze := by
  induction l with
  | nil => rfl
  | cons a l ih =>
    rw [List.map_cons, List.filter_cons, List.filter_cons, usableCode_wrap]
    by_cases h : usableSeg a = true
    · rw [h]
      simp only [if_pos trivial, List.map_cons, ih]
    · rw [Bool.not_eq_true] at h
      rw [h]
      simpa using ih

/-- C4 counterexample: a non-empty active list whose only fragment is empty
after trimming does not compose to the silence token — the single-element
early return hands back the trimmed (empty) fragment itself. -/
theorem compose_silence_counterexample :
    composeActive [{ seg := { id := "s1", code := "", name := "n",
                              startTime := 0, duration := 8, repeatFlag := false },
                     trackId := "t1", trackColor := "red" }] = ""
    ∧ ("" : String) ≠ "silence" := by
  constructor
  · rfl
  · decide

/-- C4 (amended) -- `composeActive []` is the silence token, and a non-empty
active list of only empty/no-op fragments composes to the silence token in
every case except a singleton list whose fragment trims to the empty string,
which composes to the empty string (a singleton `silence` fragment still
gives the silence token). -/
theorem compose_silence_amended (activeSegments : List ActiveSegment)
    (h : ∀ a ∈ activeSegments,
      jsTrim a.seg.code = "" ∨ jsTrim a.seg.code = "silence") :
    composeActive activeSegments =
      (match activeSegments with
       | [a] => if jsTrim a.seg.code = "" then "" else "silence"
       | _ => "silence") := by
  match activeSegments with
  | [] => rfl
  | [a] =>
    have ha := h a (by simp)
    have hu : usableSeg a = false := by
      rw [usableSeg, usableCode]
      rcases ha with ha | ha <;> simp [ha]
    show wrapWithAnalyze a = _
    rw [wrapWithAnalyze_of_unusable a hu]
    rcases ha with ha | ha <;> simp [ha]
  | a :: b :: l =>
    have hf : (a :: b :: l).filter usableSeg = [] := by
      rw [List.filter_eq_nil_iff]
      intro x hx
      rcases h x hx with hx' | hx' <;> simp [usableSeg, usableCode, hx']
    have key : ((a :: b :: l).map wrapWithAnalyze).filter usableCode = [] := by
      rw [filter_map_wrap, hf, List.map_nil]
    simp only [composeActive, key]

/-- Witness for C4 (amended): two empty-code segments compose to the
silence token. -/
theorem compose_silence_amended_witness :
    composeActive
      [{ seg := { id := "s1", code := "", name := "n",
                  startTime := 0, duration := 8, repeatFlag := false },
         trackId := "t1", trackColor := "red" },
       { seg := { id := "s2", code := "  ", name := "n",
                  startTime := 0, duration := 8, repeatFlag := false },
         trackId := "t2", trackColor := "blue" }] = "silence" := by
  rw [compose_silence_amended _ (by decide)]

/-- C5 -- with at least one usable fragment, each usable fragment renders as
`(<trimmed code>).analyze("<segmentId>")`; one usable fragment composes to
that wrapped string alone, several compose to the wrapped strings joined
inside `stack(...)` in active-list order, one per line. -/
theorem compose_usable_rendering (activeSegments : List ActiveSegment)
    (h : activeSegments.filter usableSeg ≠ []) :
    (∀ a : ActiveSegment, usableSeg a = true →
        wrapWithAnalyze a
          = "(" ++ jsTrim a.seg.code ++ ").analyze(\"" ++ a.seg.id ++ "\")")
    ∧ composeActive activeSegments =
        (match activeSegments.filter usableSeg with
         | [u] => wrapWithAnalyze u
         | us => "stack(\n  "
             ++ String.intercalate ",\n  " (us.map wrapWithAnalyze) ++ "\n)") := by
  refine ⟨fun a ha => wrapWithAnalyze_of_usable a ha, ?_⟩
  match activeSegments with
  | [] => exact absurd rfl h
  | [a] =>
    by_cases hu : usableSeg a = true
    · have hfa : [a].filter usableSeg = [a] := by
        rw [List.filter_cons, hu]
        simp
      rw [hfa]
      rfl
    · rw [Bool.not_eq_true] at hu
      have hfa : [a].filter usableSeg = [] := by
        rw [List.filter_cons, hu]
        simp
      exact absurd hfa h
  | a :: b :: l =>
    have key : ((a :: b :: l).map wrapWithAnalyze).filter usableCode
        = ((a :: b :: l).filter usableSeg).map wrapWithAnalyze :=
      filter_map_wrap _
    simp only [List.map_cons] at key
    rcases hfl : (a :: b :: l).filter usableSeg with _ | ⟨u, _ | ⟨v, rest⟩⟩
    · exact absurd hfl h
    · rw [hfl] at key
      simp only [composeActive, key, List.map_cons, List.map_nil]
    · rw [hfl] at key
      simp only [composeActive, key, List.map_cons]

/-- Witness for C5: one usable and one empty fragment — the usable one is
returned wrapped, alone; adding a second usable fragment stacks both. -/
theorem compose_usable_rendering_witness :
    composeActive
      [{ seg := { id := "s1", code := " s(\"bd\") ", name := "n",
                  startTime := 0, duration := 8, repeatFlag := false },
         trackId := "t1", trackColor := "red" },
       { seg := { id := "s2", code := "", name := "n",
                  startTime := 0, duration := 8, repeatFlag := false },
         trackId := "t2", trackColor := "blue" }]
      = "(s(\"bd\")).analyze(\"s1\")" := by
  rw [(compose_usable_rendering _ (by decide)).2]
  decide

/-- C6 -- `composeActive` is a pure function of the ordered (code, id) pairs
of its input: two active lists equal under that projection compose to the
same string. -/
theorem compose_deterministic (l1 l2 : List ActiveSegment)
    (h : l1.map codeIdPair = l2.map codeIdPair) :
    composeActive l1 = composeActive l2 := by
  have hw : l1.map wrapWithAnalyze = l2.map wrapWithAnalyze := by
    have h1 : l1.map wrapWithAnalyze = (l1.map codeIdPair).map wrapPair := by
      rw [List.map_map]
      rfl
    have h2 : l2.map wrapWithAnalyze = (l2.map codeIdPair).map wrapPair := by
      rw [List.map_map]
      rfl
    rw [h1, h2, h]
  have hlen : l1.length = l2.length := by
    have := congrArg List.length h
    simpa using this
  match l1, l2 with
  | [], [] => rfl
  | [], _ :: _ => exact absurd hlen (by simp)
  | _ :: _, [] => exact absurd hlen (by simp)
  | [a], [b] =>
    show wrapWithAnalyze a = wrapWithAnalyze b
    simpa using hw
  | [_], _ :: _ :: _ => exact absurd hlen (by simp)
  | _ :: _ :: _, [_] => exact absurd hlen (by simp)
  | a :: a2 :: t1, b :: b2 :: t2 =>
    simp only [composeActive]
    rw [hw]

/-- Witness for C6: the same (code, id) pairs on different tracks and
positions compose identically. -/
theorem compose_deterministic_witness :
    composeActive
        [{ seg := { id := "s1", code := "s(\"bd\")", name := "n1",
                    startTime := 0, duration := 8, repeatFlag := false },
           trackId := "t1", trackColor := "red" }]
      = composeActive
        [{ seg := { id := "s1", code := "s(\"bd\")", name := "other",
                    startTime := 4, duration := 2, repeatFlag := true },
           trackId := "t9", trackColor := "blue" }] :=
  compose_deterministic _ _ (by decide)

/-! ### Model mutations (`addSegment`, `updateSegment`, `removeSegment`) -/

/-- A partial segment record: the `segmentData`/`updates` argument of
`addSegment`/`updateSegment`.  A `some` field is a key present in the JS
object, overriding the base value under object spread. -/
structure SegmentData where
  code : Option String
  startTime : Option ℚ
  duration : Option ℚ
  name : Option String
  repeatFlag : Option Bool
deriving DecidableEq

/-- The segment literal built by `addSegment`: defaults first, then
`...segmentData` overriding every supplied field (so a supplied falsy value
such as `0` still wins, because the spread comes last). -/
def buildSegment (newId : String) (segmentData : SegmentData) : Segment :=
  { id := newId
    code := segmentData.code.getD ""
    startTime := segmentData.startTime.getD 0
    duration := segmentData.duration.getD 8
    name := segmentData.name.getD "Untitled"
    repeatFlag := segmentData.repeatFlag.getD false }

/-- `{ ...segment, ...updates }`: supplied fields replace the old ones. -/
def applyUpdates (segment : Segment) (updates : SegmentData) : Segment :=
  { segment with
    code := updates.code.getD segment.code
    startTime := updates.startTime.getD segment.startTime
    duration := updates.duration.getD segment.duration
    name := updates.name.getD segment.name
    repeatFlag := updates.repeatFlag.getD segment.repeatFlag }

/-- The `tracks` + session `duration` slice of the `useTimeline` state that
the segment mutations read and write. -/
structure TimelineModel where
  tracks : List Track
  duration : ℚ
deriving DecidableEq

/-- `Math.ceil(t / 8) * 8`: round up to the nearest multiple of 8 seconds. -/
def roundUp8 (t : ℚ) : ℚ :=
  (⌈t / 8⌉ : ℤ) * 8

/-- The watermark step shared by `addSegment` and `updateSegment`: raise the
session duration only when the segment end passes it. -/
def extendWatermark (dur segmentEnd : ℚ) : ℚ :=
  if segmentEnd > dur then roundUp8 segmentEnd else dur

/-- `addSegment(trackId, segmentData)`: append the built segment to the
matching track and recompute the watermark from the new segment's end. -/
def addSegment (m : TimelineModel) (trackId newId : String)
    (segmentData : SegmentData) : TimelineModel :=
  let segment := buildSegment newId segmentData
  { tracks := m.tracks.map fun track =>
      if track.id = trackId then
        { track with segments := track.segments ++ [segment] }
      else track
    duration := extendWatermark m.duration (segment.startTime + segment.duration) }

/-- `tracks.find((t) => t.id === trackId)`. -/
def findTrack (tracks : List Track) (trackId : String) : Option Track :=
  tracks.find? fun t => t.id = trackId

/-- `track.segments.find((s) => s.id === segmentId)`. -/
def findSegmentIn (track : Track) (segmentId : String) : Option Segment :=
  track.segments.find? fun s => s.id = segmentId

/-- Lookup of a segment through its owning track. -/
def findSegment (tracks : List Track) (trackId segmentId : String) : Option Segment :=
  (findTrack tracks trackId).bind fun t => findSegmentIn t segmentId

/-- `updateSegment(trackId, segmentId, updates)`: merge the updates into the
matching segment; when `startTime` or `duration` is supplied, recompute the
watermark from the pre-mutation segment completed with the supplied fields. -/
def updateSegment (m : TimelineModel) (trackId segmentId : String)
    (updates : SegmentData) : TimelineModel :=
  { tracks := m.tracks.map fun track =>
      if track.id = trackId then
        { track with segments := track.segments.map fun segment =>
            if segment.id = segmentId then applyUpdates segment updates
            else segment }
      else track
    duration :=
      if updates.startTime.isSome ∨ updates.duration.isSome then
        match findSegment m.tracks trackId segmentId with
        | some segment =>
            extendWatermark m.duration
              ((updates.startTime.getD segment.startTime)
                + (updates.duration.getD segment.duration))
        | none => m.duration
      else m.duration }

/-- `removeSegment(trackId, segmentId)`: drop the segment; the watermark is
left untouched. -/
def removeSegment (m : TimelineModel) (trackId segmentId : String) : TimelineModel :=
  { m with tracks := m.tracks.map fun track =>
      if track.id = trackId then
        { track with segments := track.segments.filter fun s => ¬(s.id = segmentId) }
      else track }

/-- `d` is the smallest multiple of 8 that is at least `t`. -/
def IsLeastMult8 (t d : ℚ) : Prop :=
  (∃ k : ℤ, d = 8 * k) ∧ t ≤ d ∧ ∀ k : ℤ, t ≤ 8 * k → d ≤ 8 * k

theorem roundUp8_least (t : ℚ) : IsLeastMult8 t (roundUp8 t) := by
  refine ⟨⟨⌈t / 8⌉, by rw [roundUp8]; ring⟩, ?_, ?_⟩
  · rw [roundUp8]
    have h := Int.le_ceil (t / 8)
    calc t = (t / 8) * 8 := by ring
      _ ≤ (⌈t / 8⌉ : ℚ) * 8 := by
          exact mul_le_mul_of_nonneg_right h (by norm_num)
  · intro k hk
    have h8 : t / 8 ≤ (k : ℚ) := by linarith
    have hc : ⌈t / 8⌉ ≤ k := Int.ceil_le.mpr h8
    rw [roundUp8]
    have : (⌈t / 8⌉ : ℚ) ≤ (k : ℚ) := by exact_mod_cast hc
    linarith

theorem extendWatermark_mono (dur segmentEnd : ℚ) :
    dur ≤ extendWatermark dur segmentEnd := by
  rw [extendWatermark]
  by_cases h : segmentEnd > dur
  · rw [if_pos h]
    have := (roundUp8_least segmentEnd).2.1
    linarith
  · rw [if_neg h]

theorem updateSegment_duration_eq (m : TimelineModel) (trackId segmentId : String)
    (u : SegmentData) (seg : Segment)
    (hf : findSegment m.tracks trackId segmentId = some seg)
    (hc : u.startTime.isSome ∨ u.duration.isSome) :
    (updateSegment m trackId segmentId u).duration
      = extendWatermark m.duration
          ((u.startTime.getD seg.startTime) + (u.duration.getD seg.duration)) := by
  show (if u.startTime.isSome ∨ u.duration.isSome then
          match findSegment m.tracks trackId segmentId with
          | some segment =>
              extendWatermark m.duration
                ((u.startTime.getD segment.startTime)
                  + (u.duration.getD segment.duration))
          | none => m.duration
        else m.duration) = _
  rw [if_pos hc, hf]

/-- C3 -- the session duration is a monotone watermark: an `addSegment` whose
built segment ends past the current duration raises it to the least multiple
of 8 at or above that end; no segment mutation ever lowers it; and
`updateSegment` computes the end time from the supplied fields completed by
the pre-mutation segment. -/
theorem duration_watermark_spec (m : TimelineModel)
    (trackId segmentId newId : String) (sd u : SegmentData) :
    ((buildSegment newId sd).startTime + (buildSegment newId sd).duration
        > m.duration →
      IsLeastMult8
        ((buildSegment newId sd).startTime + (buildSegment newId sd).duration)
        ((addSegment m trackId newId sd).duration))
    ∧ m.duration ≤ (addSegment m trackId newId sd).duration
    ∧ m.duration ≤ (updateSegment m trackId segmentId u).duration
    ∧ (removeSegment m trackId segmentId).duration = m.duration
    ∧ (∀ seg : Segment, findSegment m.tracks trackId segmentId = some seg →
        (u.startTime.isSome ∨ u.duration.isSome) →
        (updateSegment m trackId segmentId u).duration
          = extendWatermark m.duration
              ((u.startTime.getD seg.startTime) + (u.duration.getD seg.duration))
        ∧ ((u.startTime.getD seg.startTime) + (u.duration.getD seg.duration)
            > m.duration →
          IsLeastMult8
            ((u.startTime.getD seg.startTime) + (u.duration.getD seg.duration))
            ((updateSegment m trackId segmentId u).duration))) := by
  refine ⟨?_, extendWatermark_mono _ _, ?_, rfl, ?_⟩
  · intro h
    have hd : (addSegment m trackId newId sd).duration
        = extendWatermark m.duration
            ((buildSegment newId sd).startTime + (buildSegment newId sd).duration) :=
      rfl
    rw [hd, extendWatermark, if_pos h]
    exact roundUp8_least _
  · have hd : (updateSegment m trackId segmentId u).duration
        = (if u.startTime.isSome ∨ u.duration.isSome then
            match findSegment m.tracks trackId segmentId with
            | some segment =>
                extendWatermark m.duration
                  ((u.startTime.getD segment.startTime)
                    + (u.duration.getD segment.duration))
            | none => m.duration
          else m.duration) := rfl
    rw [hd]
    by_cases hc : u.startTime.isSome ∨ u.duration.isSome
    · rw [if_pos hc]
      cases hf : findSegment m.tracks trackId segmentId with
      | some seg => exact extendWatermark_mono _ _
      | none => exact le_refl _
    · rw [if_neg hc]
  · intro seg hf hc
    have he := updateSegment_duration_eq m trackId segmentId u seg hf hc
    refine ⟨he, ?_⟩
    intro hgt
    rw [he, extendWatermark, if_pos hgt]
    exact roundUp8_least _

/-- Witness for C3: on a session of duration 8, adding a segment covering
`[5, 9)` raises the duration to the least multiple of 8 at or above 9
(namely 16), and an update supplying only a new duration reads the
pre-mutation `startTime`. -/
theorem duration_watermark_spec_witness :
    IsLeastMult8 9
      ((addSegment { tracks := [], duration := 8 } "t1" "s1"
          { code := none, startTime := some 5, duration := some 4,
            name := none, repeatFlag := none }).duration)
    ∧ ({ tracks := [], duration := 8 } : TimelineModel).duration
        ≤ (addSegment { tracks := [], duration := 8 } "t1" "s1"
            { code := none, startTime := some 5, duration := some 4,
              name := none, repeatFlag := none }).duration := by
  have h := duration_watermark_spec { tracks := [], duration := 8 } "t1" "s0" "s1"
    { code := none, startTime := some 5, duration := some 4,
      name := none, repeatFlag := none }
    { code := none, startTime := none, duration := none,
      name := none, repeatFlag := none }
  have h9 : (buildSegment "s1"
        { code := none, startTime := some 5, duration := some 4,
          name := none, repeatFlag := none }).startTime
      + (buildSegment "s1"
          { code := none, startTime := some 5, duration := some 4,
            name := none, repeatFlag := none }).duration = (9 : ℚ) := by
    norm_num [buildSegment]
  have h1 := h.1 (by rw [h9]; norm_num)
  rw [h9] at h1
  exact ⟨h1, h.2.1⟩

/-- The per-segment bounds of the spec invariant: nonnegative start, a
duration of at least one second. -/
def SegmentBoundsInv (tracks : List Track) : Prop :=
  ∀ tr ∈ tracks, ∀ sg ∈ tr.segments, 0 ≤ sg.startTime ∧ 1 ≤ sg.duration

/-- C9 counterexample: `addSegment` stores a supplied negative `startTime`
and a sub-second `duration` verbatim — the model performs no clamping. -/
theorem model_clamp_counterexample :
    ¬ SegmentBoundsInv
      (addSegment
          { tracks := [{ id := "t1", name := "T", color := "red",
                         segments := [], muted := false, solo := false }],
            duration := 32 }
          "t1" "s1"
          { code := some "x", startTime := some (-5), duration := some (1/2),
            name := none, repeatFlag := none }).tracks := by
  intro h
  have hmem : ({ id := "t1", name := "T", color := "red",
                 segments := [{ id := "s1", code := "x", name := "Untitled",
                                startTime := -5, duration := 1/2,
                                repeatFlag := false }],
                 muted := false, solo := false } : Track)
      ∈ (addSegment
          { tracks := [{ id := "t1", name := "T", color := "red",
                         segments := [], muted := false, solo := false }],
            duration := 32 }
          "t1" "s1"
          { code := some "x", startTime := some (-5), duration := some (1/2),
            name := none, repeatFlag := none }).tracks :=
    List.mem_singleton.mpr rfl
  have := h _ hmem
    { id := "s1", code := "x", name := "Untitled",
      startTime := -5, duration := 1/2, repeatFlag := false }
    (List.mem_singleton.mpr rfl)
  exact absurd this.1 (by norm_num)

/-- C9 (amended) -- the model does not clamp: mutations store supplied fields
verbatim.  The bounds `startTime ≥ 0`, `duration ≥ 1` are nevertheless
preserved by `addSegment` and `updateSegment` whenever every supplied
`startTime`/`duration` field itself satisfies them (as the UI-level resize
enforcement guarantees); the defaults (0 and 8) satisfy them. -/
theorem model_bounds_preserved (m : TimelineModel)
    (trackId segmentId newId : String) (sd u : SegmentData)
    (hm : SegmentBoundsInv m.tracks)
    (hs : ∀ x : ℚ, sd.startTime = some x → 0 ≤ x)
    (hd : ∀ x : ℚ, sd.duration = some x → 1 ≤ x)
    (hs2 : ∀ x : ℚ, u.startTime = some x → 0 ≤ x)
    (hd2 : ∀ x : ℚ, u.duration = some x → 1 ≤ x) :
    SegmentBoundsInv (addSegment m trackId newId sd).tracks
    ∧ SegmentBoundsInv (updateSegment m trackId segmentId u).tracks := by
  have hbuild : 0 ≤ (buildSegment newId sd).startTime
      ∧ 1 ≤ (buildSegment newId sd).duration := by
    constructor
    · cases hx : sd.startTime with
      | none => simp [buildSegment, hx]
      | some x => simpa [buildSegment, hx] using hs x hx
    · cases hx : sd.duration with
      | none =>
        simp only [buildSegment, hx, Option.getD_none]
        norm_num
      | some x => simpa [buildSegment, hx] using hd x hx
  constructor
  · intro tr htr sg hsg
    have ht : (addSegment m trackId newId sd).tracks
        = m.tracks.map (fun track =>
            if track.id = trackId then
              { track with segments := track.segments ++ [buildSegment newId sd] }
            else track) := rfl
    rw [ht, List.mem_map] at htr
    obtain ⟨tr0, htr0, rfl⟩ := htr
    by_cases hid : tr0.id = trackId
    · rw [if_pos hid] at hsg
      simp only [List.mem_append, List.mem_singleton] at hsg
      rcases hsg with hsg | rfl
      · exact hm tr0 htr0 sg hsg
      · exact hbuild
    · rw [if_neg hid] at hsg
      exact hm tr0 htr0 sg hsg
  · intro tr htr sg hsg
    have ht : (updateSegment m trackId segmentId u).tracks
        = m.tracks.map (fun track =>
            if track.id = trackId then
              { track with segments := track.segments.map fun segment =>
                  if segment.id = segmentId then applyUpdates segment u
                  else segment }
            else track) := rfl
    rw [ht, List.mem_map] at htr
    obtain ⟨tr0, htr0, rfl⟩ := htr
    by_cases hid : tr0.id = trackId
    · rw [if_pos hid] at hsg
      simp only [List.mem_map] at hsg
      obtain ⟨sg0, hsg0, rfl⟩ := hsg
      have hb := hm tr0 htr0 sg0 hsg0
      by_cases hsid : sg0.id = segmentId
      · rw [if_pos hsid]
        constructor
        · cases hx : u.startTime with
          | none => simpa [applyUpdates, hx] using hb.1
          | some x => simpa [applyUpdates, hx] using hs2 x hx
        · cases hx : u.duration with
          | none => simpa [applyUpdates, hx] using hb.2
          | some x => simpa [applyUpdates, hx] using hd2 x hx
      · rw [if_neg hsid]
        exact hb
    · rw [if_neg hid] at hsg
      exact hm tr0 htr0 sg hsg

/-- Witness for C9 (amended): in-bounds supplied fields keep every stored
segment in bounds through an add and an update. -/
theorem model_bounds_preserved_witness :
    SegmentBoundsInv
      (addSegment
          { tracks := [{ id := "t1", name := "T", color := "red",
                         segments := [{ id := "s0", code := "c", name := "n",
                                        startTime := 0, duration := 8,
                                        repeatFlag := false }],
                         muted := false, solo := false }],
            duration := 32 }
          "t1" "s1"
          { code := some "y", startTime := some 3, duration := some 2,
            name := none, repeatFlag := none }).tracks
    ∧ SegmentBoundsInv
      (updateSegment
          { tracks := [{ id := "t1", name := "T", color := "red",
                         segments := [{ id := "s0", code := "c", name := "n",
                                        startTime := 0, duration := 8,
                                        repeatFlag := false }],
                         muted := false, solo := false }],
            duration := 32 }
          "t1" "s0"
          { code := some "y", startTime := some 3, duration := some 2,
            name := none, repeatFlag := none }).tracks := by
  refine model_bounds_preserved _ "t1" "s0" "s1"
    { code := some "y", startTime := some 3, duration := some 2,
      name := none, repeatFlag := none }
    { code := some "y", startTime := some 3, duration := some 2,
      name := none, repeatFlag := none }
    (by
      intro tr htr sg hsg
      rw [List.mem_singleton] at htr
      subst htr
      rw [List.mem_singleton] at hsg
      subst hsg
      norm_num) ?_ ?_ ?_ ?_ <;>
  · intro x hx
    simp only [Option.some.injEq] at hx
    subst hx
    norm_num

/-! ### Playback clock (`useTimelinePlayback`) -/

/-- The mutable refs and published state of `useTimelinePlayback`:
`isPlaying`, the published playhead, the epoch reference `startTimeRef` and
the last-pushed-program cache `lastActiveCodeRef`. -/
structure PlaybackState where
  isPlaying : Bool
  playheadPosition : ℚ
  startTime : Option ℚ
  lastActiveCode : String
deriving DecidableEq

/-- The Running→Stopped branch of the effect: stop the loop, reset the
playhead, clear the epoch and the cache.  It ignores the previous state
entirely. -/
def stopPlayback (_s : PlaybackState) : PlaybackState :=
  { isPlaying := false, playheadPosition := 0, startTime := none,
    lastActiveCode := "" }

/-- The Stopped→Running branch: mark playing and reset the epoch to unset so
the next tick re-latches it. -/
def startPlayback (s : PlaybackState) : PlaybackState :=
  { s with isPlaying := true, startTime := none }

/-- One `updatePlayback` tick at audio-clock time `currentTime`: latch the
epoch if unset, publish the (possibly repeat-wrapped) playhead, and when the
timeline has segments, manual editing is off and the generated program
changed, remember it as last pushed. -/
def tick (tracks : List Track) (selectedSegment : Option Segment)
    (isManualEditing : Bool) (s : PlaybackState) (currentTime : ℚ) :
    PlaybackState :=
  let start := s.startTime.getD currentTime
  let timelinePosition := computeTimelinePosition selectedSegment (currentTime - start)
  let hasSegments := tracks.any fun t => !t.segments.isEmpty
  let activeCode := generateCombinedCode tracks timelinePosition
  if hasSegments && !isManualEditing && !(activeCode == s.lastActiveCode) then
    { isPlaying := s.isPlaying, playheadPosition := timelinePosition,
      startTime := some start, lastActiveCode := activeCode }
  else
    { isPlaying := s.isPlaying, playheadPosition := timelinePosition,
      startTime := some start, lastActiveCode := s.lastActiveCode }

theorem tick_playheadPosition (tracks : List Track) (sel : Option Segment)
    (manual : Bool) (s : PlaybackState) (t : ℚ) :
    (tick tracks sel manual s t).playheadPosition
      = computeTimelinePosition sel (t - s.startTime.getD t) := by
  rw [tick]
  split <;> rfl

theorem tick_startTime (tracks : List Track) (sel : Option Segment)
    (manual : Bool) (s : PlaybackState) (t : ℚ) :
    (tick tracks sel manual s t).startTime = some (s.startTime.getD t) := by
  rw [tick]
  split <;> rfl

/-- C7 -- stopping resets `isPlaying`, the playhead, the program cache and
the epoch, erasing every trace of the previous Running episode; after a
subsequent start, the first tick latches the epoch from the audio clock and
publishes playhead 0, and a later tick publishes the elapsed time. -/
theorem stop_clears_and_start_relatches (s : PlaybackState)
    (tracks : List Track) (sel : Option Segment) (manual : Bool) (t1 t2 : ℚ)
    (hsel : ∀ seg : Segment, sel = some seg → seg.repeatFlag = false) :
    (stopPlayback s).isPlaying = false
    ∧ (stopPlayback s).playheadPosition = 0
    ∧ (stopPlayback s).lastActiveCode = ""
    ∧ (stopPlayback s).startTime = none
    ∧ (∀ s' : PlaybackState, stopPlayback s = stopPlayback s')
    ∧ (tick tracks sel manual (startPlayback (stopPlayback s)) t1).playheadPosition
        = 0
    ∧ (tick tracks sel manual (startPlayback (stopPlayback s)) t1).startTime
        = some t1
    ∧ (tick tracks sel manual
        (tick tracks sel manual (startPlayback (stopPlayback s)) t1)
        t2).playheadPosition = t2 - t1 := by
  have hnorep : ∀ raw : ℚ, computeTimelinePosition sel raw = raw := fun raw =>
    computeTimelinePosition_no_repeat sel raw hsel
  refine ⟨rfl, rfl, rfl, rfl, fun s' => rfl, ?_, ?_, ?_⟩
  · rw [tick_playheadPosition]
    exact (hnorep (t1 - t1)).trans (sub_self t1)
  · rw [tick_startTime]
    rfl
  · rw [tick_playheadPosition, tick_startTime]
    exact hnorep (t2 - t1)

/-- Witness for C7: the spec scenario — start at audio-time 100 publishes
playhead 0, a tick at 102.5 publishes 2.5, independent of the residue left
in the stopped state. -/
theorem stop_clears_and_start_relatches_witness :
    (tick [] none false
        (startPlayback (stopPlayback
          { isPlaying := true, playheadPosition := 7, startTime := some 3,
            lastActiveCode := "old" })) 100).playheadPosition = 0
    ∧ (tick [] none false
        (tick [] none false
          (startPlayback (stopPlayback
            { isPlaying := true, playheadPosition := 7, startTime := some 3,
              lastActiveCode := "old" })) 100)
        (205/2)).playheadPosition = 205/2 - 100 := by
  have h := stop_clears_and_start_relatches
    { isPlaying := true, playheadPosition := 7, startTime := some 3,
      lastActiveCode := "old" }
    [] none false 100 (205/2) (fun seg hs => by cases hs)
  exact ⟨h.2.2.2.2.2.1, h.2.2.2.2.2.2.2⟩

/-! ### Edit-override arbiter (`ReplEditor`) -/

/-- The data of the selected segment the arbiter needs: its owning track,
its id, its code. -/
structure SelectedSegmentRef where
  trackId : String
  id : String
  code : String
deriving DecidableEq

/-- The arbiter state of `ReplEditor`: the timeline model, the selection,
`isManualEditing` (suppression), `lastEditorCodeRef` and the pending quiet
timer's deadline. -/
structure EditorSyncState where
  model : TimelineModel
  selectedSegment : Option SelectedSegmentRef
  isManualEditing : Bool
  lastEditorCode : String
  manualEditDeadline : Option ℚ
deriving DecidableEq

/-- The `{ code: currentCode }` partial update passed to
`timeline.updateSegment` by the arbiter. -/
def codeOnlyUpdate (c : String) : SegmentData :=
  { code := some c, startTime := none, duration := none, name := none,
    repeatFlag := none }

/-- `handleCodeChange` observed at time `now`: with a selection and a code
differing from the last known editor code, suppress, write the code into the
model and (re)start the 2-second quiet timer; always record the observed
code. -/
def handleCodeChange (s : EditorSyncState) (now : ℚ) (currentCode : String) :
    EditorSyncState :=
  match s.selectedSegment with
  | some sel =>
    if currentCode ≠ s.lastEditorCode then
      { s with
        isManualEditing := true
        model := updateSegment s.model sel.trackId sel.id (codeOnlyUpdate currentCode)
        manualEditDeadline := some (now + 2)
        lastEditorCode := currentCode }
    else { s with lastEditorCode := currentCode }
  | none => { s with lastEditorCode := currentCode }

/-- The quiet timer elapsing with no further change: resume timeline
control. -/
def manualEditTimerElapse (s : EditorSyncState) : EditorSyncState :=
  { s with isManualEditing := false, manualEditDeadline := none }

/-- `handleSegmentSelect`: change the selection and reset the last known
editor code to the selected segment's code (empty when deselecting). -/
def handleSegmentSelect (s : EditorSyncState)
    (segment : Option SelectedSegmentRef) : EditorSyncState :=
  { s with selectedSegment := segment,
           lastEditorCode := (segment.map fun sg => sg.code).getD "" }

theorem updateSegment_duration_none (m : TimelineModel)
    (trackId segmentId : String) (u : SegmentData)
    (hc : ¬(u.startTime.isSome ∨ u.duration.isSome)) :
    (updateSegment m trackId segmentId u).duration = m.duration := by
  show (if u.startTime.isSome ∨ u.duration.isSome then
          match findSegment m.tracks trackId segmentId with
          | some segment =>
              extendWatermark m.duration
                ((u.startTime.getD segment.startTime)
                  + (u.duration.getD segment.duration))
          | none => m.duration
        else m.duration) = m.duration
  rw [if_neg hc]

theorem findSegmentIn_map_update (segments : List Segment) (segmentId : String)
    (u : SegmentData) :
    (segments.map fun segment =>
        if segment.id = segmentId then applyUpdates segment u else segment).find?
          (fun s => s.id = segmentId)
      = (segments.find? fun s => s.id = segmentId).map
          fun segment => applyUpdates segment u := by
  induction segments with
  | nil => rfl
  | cons sg sgs ih =>
    rw [List.map_cons]
    by_cases hid : sg.id = segmentId
    · rw [if_pos hid]
      rw [List.find?_cons_of_pos _ (by simp [applyUpdates, hid])]
      rw [List.find?_cons_of_pos _ (by simp [hid])]
      rfl
    · rw [if_neg hid]
      rw [List.find?_cons_of_neg _ (by simp [hid])]
      rw [List.find?_cons_of_neg _ (by simp [hid])]
      exact ih

theorem findSegment_updateSegment (m : TimelineModel)
    (trackId segmentId : String) (u : SegmentData) :
    findSegment (updateSegment m trackId segmentId u).tracks trackId segmentId
      = (findSegment m.tracks trackId segmentId).map
          fun segment => applyUpdates segment u := by
  have ht : (updateSegment m trackId segmentId u).tracks
      = m.tracks.map (fun track =>
          if track.id = trackId then
            { track with segments := track.segments.map fun segment =>
                if segment.id = segmentId then applyUpdates segment u
                else segment }
          else track) := rfl
  rw [ht, findSegment, findSegment]
  have hft : findTrack (m.tracks.map (fun track =>
      if track.id = trackId then
        { track with segments := track.segments.map fun segment =>
            if segment.id = segmentId then applyUpdates segment u
            else segment }
      else track)) trackId
    = (findTrack m.tracks trackId).map fun track =>
        { track with segments := track.segments.map fun segment =>
            if segment.id = segmentId then applyUpdates segment u
            else segment } := by
    induction m.tracks with
    | nil => rfl
    | cons tr trs ih =>
      rw [List.map_cons]
      by_cases hid : tr.id = trackId
      · rw [if_pos hid]
        rw [findTrack, List.find?_cons_of_pos _ (by simp [hid])]
        rw [findTrack, List.find?_cons_of_pos _ (by simp [hid])]
        rfl
      · rw [if_neg hid]
        rw [findTrack, List.find?_cons_of_neg _ (by simp [hid])]
        rw [findTrack, List.find?_cons_of_neg _ (by simp [hid])]
        exact ih
  rw [hft]
  cases hf : findTrack m.tracks trackId with
  | none => rfl
  | some tr =>
    simp only [Option.map_some, Option.some_bind]
    exact findSegmentIn_map_update tr.segments segmentId u

/-- C8 -- a code-change event with a selected segment and a code differing
from the last known editor code suppresses timeline control, writes the new
code (and nothing else) into that segment in the model, and restarts the
2-second quiet timer; the timer elapsing lifts suppression; selecting a
segment resets the last known editor code without suppressing. -/
theorem edit_arbiter_spec (s : EditorSyncState) (now : ℚ) (currentCode : String)
    (sel : SelectedSegmentRef)
    (hsel : s.selectedSegment = some sel)
    (hne : currentCode ≠ s.lastEditorCode) :
    (handleCodeChange s now currentCode).isManualEditing = true
    ∧ (handleCodeChange s now currentCode).manualEditDeadline = some (now + 2)
    ∧ (handleCodeChange s now currentCode).lastEditorCode = currentCode
    ∧ findSegment (handleCodeChange s now currentCode).model.tracks
          sel.trackId sel.id
        = (findSegment s.model.tracks sel.trackId sel.id).map
            (fun sg => { sg with code := currentCode })
    ∧ (handleCodeChange s now currentCode).model.duration = s.model.duration
    ∧ (∀ t : EditorSyncState, (manualEditTimerElapse t).isManualEditing = false)
    ∧ (∀ seg2 : Option SelectedSegmentRef,
        (handleSegmentSelect s seg2).lastEditorCode
            = (seg2.map fun sg => sg.code).getD ""
        ∧ (handleSegmentSelect s seg2).isManualEditing = s.isManualEditing) := by
  obtain ⟨model, selop, man, last, dl⟩ := s
  simp only at hsel hne
  subst hsel
  have hred : handleCodeChange
      { model := model, selectedSegment := some sel, isManualEditing := man,
        lastEditorCode := last, manualEditDeadline := dl } now currentCode
      = { model := updateSegment model sel.trackId sel.id
            (codeOnlyUpdate currentCode),
          selectedSegment := some sel, isManualEditing := true,
          lastEditorCode := currentCode,
          manualEditDeadline := some (now + 2) } := by
    show (if currentCode ≠ last then _ else _) = _
    rw [if_pos hne]
  rw [hred]
  have hdur := updateSegment_duration_none model sel.trackId sel.id
    (codeOnlyUpdate currentCode) (by simp [codeOnlyUpdate])
  refine ⟨rfl, rfl, rfl, ?_, hdur, fun t => rfl, fun seg2 => ⟨rfl, rfl⟩⟩
  exact findSegment_updateSegment model sel.trackId sel.id
    (codeOnlyUpdate currentCode)

/-- Witness for C8: a concrete change event suppresses, restarts the timer
at deadline 42 + 2, and rewrites the selected segment's code in the model. -/
theorem edit_arbiter_spec_witness :
    (handleCodeChange
        { model := { tracks := [{ id := "t1", name := "T", color := "red",
                                  segments := [{ id := "s1", code := "old",
                                                 name := "n", startTime := 0,
                                                 duration := 8,
                                                 repeatFlag := false }],
                                  muted := false, solo := false }],
                     duration := 32 },
          selectedSegment := some { trackId := "t1", id := "s1", code := "old" },
          isManualEditing := false, lastEditorCode := "old",
          manualEditDeadline := none } 42 "new").isManualEditing = true
    ∧ (handleCodeChange
        { model := { tracks := [{ id := "t1", name := "T", color := "red",
                                  segments := [{ id := "s1", code := "old",
                                                 name := "n", startTime := 0,
                                                 duration := 8,
                                                 repeatFlag := false }],
                                  muted := false, solo := false }],
                     duration := 32 },
          selectedSegment := some { trackId := "t1", id := "s1", code := "old" },
          isManualEditing := false, lastEditorCode := "old",
          manualEditDeadline := none } 42 "new").manualEditDeadline
        = some (42 + 2) := by
  have h := edit_arbiter_spec
    { model := { tracks := [{ id := "t1", name := "T", color := "red",
                              segments := [{ id := "s1", code := "old",
                                             name := "n", startTime := 0,
                                             duration := 8,
                                             repeatFlag := false }],
                              muted := false, solo := false }],
                 duration := 32 },
      selectedSegment := some { trackId := "t1", id := "s1", code := "old" },
      isManualEditing := false, lastEditorCode := "old",
      manualEditDeadline := none } 42 "new"
    { trackId := "t1", id := "s1", code := "old" } rfl (by decide)
  exact ⟨h.1, h.2.1⟩

/-! ### Song management (`createNewSong`) -/

/-- A stored song (wall-clock `createdAt`/`updatedAt` elided). -/
structure Song where
  id : String
  name : String
  tracks : List Track
  duration : ℚ
deriving DecidableEq

/-- The session state `createNewSong` touches: the song map plus the loaded
per-song state. -/
structure SessionState where
  songs : List (String × Song)
  currentSongId : String
  tracks : List Track
  duration : ℚ
  selectedSegmentId : Option String
  playheadPosition : ℚ
deriving DecidableEq

/-- JS object spread `{ ...prev, [k]: v }`: replace an existing key in place
or append a new one. -/
def setKey (songs : List (String × Song)) (k : String) (v : Song) :
    List (String × Song) :=
  if songs.any (fun p => p.1 = k) then
    songs.map fun p => if p.1 = k then (k, v) else p
  else songs ++ [(k, v)]

/-- Key lookup in the song map. -/
def lookupSong (songs : List (String × Song)) (k : String) : Option Song :=
  (songs.find? fun p => p.1 = k).map fun p => p.2

/-- `createNewSong(name, switchToNew)`: insert the fresh song (empty tracks,
duration 32) into the collection; only with `switchToNew` also load it into
the session; return the new id. -/
def createNewSong (s : SessionState) (newSongId : String) (name : Option String)
    (switchToNew : Bool) : SessionState × String :=
  let newSong : Song :=
    { id := newSongId
      name := name.getD ("Song " ++ toString (s.songs.length + 1))
      tracks := []
      duration := 32 }
  let s1 := { s with songs := setKey s.songs newSongId newSong }
  (if switchToNew then
    { s1 with currentSongId := newSongId, tracks := [], duration := 32,
              selectedSegmentId := none, playheadPosition := 0 }
  else s1, newSongId)

theorem find?_setKey (songs : List (String × Song)) (k : String) (v : Song) :
    (setKey songs k v).find? (fun p => p.1 = k) = some (k, v) := by
  induction songs with
  | nil =>
    rw [setKey, if_neg (by simp)]
    simp
  | cons p ps ih =>
    rw [setKey]
    by_cases hp : p.1 = k
    · rw [if_pos (by simp [List.any_cons, hp])]
      rw [List.map_cons, if_pos hp]
      rw [List.find?_cons_of_pos _ (by simp)]
    · by_cases hany : ps.any (fun q => q.1 = k) = true
      · rw [if_pos (by simp [List.any_cons, hany])]
        rw [List.map_cons, if_neg hp]
        rw [List.find?_cons_of_neg _ (by simp [hp])]
        have hsk : setKey ps k v
            = ps.map fun q => if q.1 = k then (k, v) else q := by
          rw [setKey, if_pos hany]
        rw [← hsk]
        exact ih
      · rw [if_neg (by simp [List.any_cons, hp, hany])]
        rw [List.cons_append]
        rw [List.find?_cons_of_neg _ (by simp [hp])]
        have hsk : setKey ps k v = ps ++ [(k, v)] := by
          rw [setKey, if_neg hany]
        rw [← hsk]
        exact ih

theorem lookupSong_setKey (songs : List (String × Song)) (k : String) (v : Song) :
    lookupSong (setKey songs k v) k = some v := by
  rw [lookupSong, find?_setKey]
  rfl

/-- C10 -- `createNewSong` with `switchToNew = false` stores the new song
(empty tracks, duration 32) and returns its id while every loaded-session
component keeps its value; with `switchToNew = true` the session is reset to
the new song. -/
theorem createNewSong_frame (s : SessionState) (newSongId : String)
    (nm : Option String) :
    ((createNewSong s newSongId nm false).2 = newSongId
      ∧ lookupSong (createNewSong s newSongId nm false).1.songs newSongId
          = some { id := newSongId,
                   name := nm.getD ("Song " ++ toString (s.songs.length + 1)),
                   tracks := [], duration := 32 }
      ∧ (createNewSong s newSongId nm false).1.currentSongId = s.currentSongId
      ∧ (createNewSong s newSongId nm false).1.tracks = s.tracks
      ∧ (createNewSong s newSongId nm false).1.duration = s.duration
      ∧ (createNewSong s newSongId nm false).1.selectedSegmentId
          = s.selectedSegmentId
      ∧ (createNewSong s newSongId nm false).1.playheadPosition
          = s.playheadPosition)
    ∧ ((createNewSong s newSongId nm true).1.currentSongId = newSongId
      ∧ (createNewSong s newSongId nm true).1.tracks = []
      ∧ (createNewSong s newSongId nm true).1.duration = 32
      ∧ (createNewSong s newSongId nm true).1.selectedSegmentId = none
      ∧ (createNewSong s newSongId nm true).1.playheadPosition = 0
      ∧ (createNewSong s newSongId nm true).2 = newSongId) := by
  refine ⟨⟨rfl, ?_, rfl, rfl, rfl, rfl, rfl⟩, rfl, rfl, rfl, rfl, rfl, rfl⟩
  exact lookupSong_setKey s.songs newSongId _

/-- Witness for C1: a single muted track is filtered out even when soloed. -/
theorem getActiveSegments_spec_witness :
    getActiveSegments
      [{ id := "t1", name := "T", color := "red",
         segments := [{ id := "s1", code := "c", name := "n",
                        startTime := 0, duration := 8, repeatFlag := false }],
         muted := true, solo := true }] 1 = [] :=
  (getActiveSegments_spec _ 1).2 (by decide)

end Strudel
